import Mathlib

/-!
Verification development for the AlphaFold3 Results Compiler
(`src/main.py` of JLane-scripps/AF3-Results-Compiler-for-Streamlit).

The program is shallowly embedded: the filename parser `extract_bait_prey`
(a Python `re.search` with pattern
`bait_([^/\\]+)_prey_([^/\\]+)(?=_summary_confidences_4)`) is embedded as
an executable backtracking matcher with Python's leftmost-start / greedy
semantics; the per-upload processing loop, the session state, the record
construction and the spreadsheet compiler are embedded as pure functions
over explicit state.  JSON numbers are modelled as rationals.
-/

namespace AF3

/-! ## Basic string machinery (over `List Char`) -/

/-- `c` is one of the two characters excluded by the character class
`[^/\\]` of the source regex. -/
def isSep (c : Char) : Bool := c == '/' || c == '\\'

/-- `begins pat l` holds when `pat` is an initial segment of `l`
(the anchored-literal test used by the regex matcher). -/
def begins : List Char → List Char → Bool
  | [], _ => true
  | _ :: _, [] => false
  | a :: s, b :: t => a == b && begins s t

/-- Length of the maximal initial run of characters allowed by `[^/\\]`. -/
def runLen (l : List Char) : Nat := (l.takeWhile (fun c => !isSep c)).length

/-- The literal checked by the lookahead `(?=_summary_confidences_4)`. -/
def lookStr : List Char := "_summary_confidences_4".data

/-- The literal `_prey_` between the two capture groups. -/
def preyStr : List Char := "_prey_".data

/-- The literal `bait_` that anchors a match. -/
def baitStr : List Char := "bait_".data

/-! ## The regex matcher

Python's `re.search` scans candidate start positions left to right; at a
given start, each `([^/\\]+)` group is greedy: it first tries the longest
run the character class allows and backtracks to shorter candidates until
the remainder of the pattern succeeds. -/

/-- Backtracking for the second group `([^/\\]+)` followed by the
lookahead: try candidate lengths `m, m-1, ..., 1` (greedy: longest first)
and return the text of the first length whose suffix starts with
`_summary_confidences_4`. -/
def tryG2 (r : List Char) : Nat → Option (List Char)
  | 0 => none
  | m + 1 =>
    if begins lookStr (r.drop (m + 1)) then some (r.take (m + 1))
    else tryG2 r m

/-- Backtracking for the first group `([^/\\]+)` followed by `_prey_` and
the rest of the pattern: try candidate lengths `n, n-1, ..., 1` (greedy)
and, for each length at which `_prey_` follows, run the second group's
backtracking; return on the first full success. -/
def tryG1 (r : List Char) : Nat → Option (List Char × List Char)
  | 0 => none
  | n + 1 =>
    if begins preyStr (r.drop (n + 1)) then
      match tryG2 (r.drop (n + 7)) (runLen (r.drop (n + 7))) with
      | some p => some (r.take (n + 1), p)
      | none => tryG1 r n
    else tryG1 r n

/-- Attempt the whole pattern anchored at the start of `l`. -/
def matchAt (l : List Char) : Option (List Char × List Char) :=
  if begins baitStr l then tryG1 (l.drop 5) (runLen (l.drop 5)) else none

/-- `re.search`: try each start position from the left; the first position
with a match wins. -/
def searchBP : List Char → Option (List Char × List Char)
  | [] => none
  | l@(_ :: t) =>
    match matchAt l with
    | some r => some r
    | none => searchBP t

/-! ## The preprocessing done by `extract_bait_prey`

The Python function first takes the part after the last `::`
(`file_identifier.split("::")[-1]`, when `::` occurs at all) and then the
basename (`os.path.basename`, everything after the last `/`). -/

/-- Does `::` occur in `l`? (`"::" in file_identifier`) -/
def occColons : List Char → Bool
  | ':' :: ':' :: _ => true
  | _ :: t => occColons t
  | [] => false

/-- The last piece of `l.split("::")`: Python scans left to right for
non-overlapping occurrences of `::`; the last piece is what remains after
the final one. -/
def afterColons : List Char → List Char
  | ':' :: ':' :: t => afterColons t
  | c :: t => if occColons t then afterColons t else c :: t
  | [] => []

/-- `os.path.basename` on POSIX: the part after the last `/`. -/
def basenameL : List Char → List Char
  | [] => []
  | c :: t => if c == '/' || t.any (fun d => d == '/') then basenameL t else c :: t

/-- The filename the regex is run on: basename of the part after the last
`::` when `::` occurs, else basename of the whole identifier. -/
def processName (l : List Char) : List Char :=
  if occColons l then basenameL (afterColons l) else basenameL l

/-- `extract_bait_prey` from `src/main.py`: returns the two capture groups
of the first (leftmost, greedy) regex match, or `none` (Python
`(None, None)`) when the pattern does not occur. -/
def extract_bait_prey (s : String) : Option (String × String) :=
  (searchBP (processName s.data)).map (fun bp => (String.mk bp.1, String.mk bp.2))

example : extract_bait_prey "fold_bait_ABC_prey_XYZ_summary_confidences_4.json"
    = some ("ABC", "XYZ") := by decide

example : extract_bait_prey "a.zip::bait_A_1_prey_B_2_summary_confidences_4.json"
    = some ("A_1", "B_2") := by decide

example : extract_bait_prey "bait_a_prey_b_prey_c_summary_confidences_4.json"
    = some ("a_prey_b", "c") := by decide

example : extract_bait_prey "nothing_useful.json" = none := by decide

example : extract_bait_prey "bait_A_prey_B_summary_confidences_3.json" = none := by decide

/-! ## Declarative description of a regex match ("candidate")

A candidate at position `i` of `l` is a pair of non-empty, separator-free
capture texts `B`, `P` such that `bait_ B _prey_ P` occurs literally at
`i` and is immediately followed by `_summary_confidences_4`. -/

/-- `(B, P)` is a candidate match of the source pattern at position `i`. -/
def candB (l : List Char) (i : Nat) (B P : List Char) : Bool :=
  !B.isEmpty && !P.isEmpty &&
  B.all (fun c => !isSep c) && P.all (fun c => !isSep c) &&
  begins (baitStr ++ B ++ preyStr ++ P) (l.drop i) &&
  begins lookStr (l.drop (i + 11 + B.length + P.length))

/-- What `searchBP` is supposed to compute: `none` exactly when no
candidate exists anywhere; otherwise a candidate at the leftmost position
admitting one, with the longest first capture there, and the longest
second capture for that first capture (Python leftmost-start, greedy
groups). -/
def GreedySpec (l : List Char) : Option (List Char × List Char) → Prop
  | none => ∀ i B P, candB l i B P = false
  | some (B, P) =>
    ∃ i, candB l i B P = true ∧
      (∀ i' B' P', candB l i' B' P' = true → i ≤ i') ∧
      (∀ B' P', candB l i B' P' = true → B'.length ≤ B.length) ∧
      (∀ P', candB l i B P' = true → P'.length ≤ P.length)

/-! ## JSON values and the confidence record -/

/-- A parsed JSON value (numbers modelled as rationals: every JSON
numeric literal denotes a rational). -/
inductive JVal where
  | null
  | bool (b : Bool)
  | num (q : ℚ)
  | str (s : String)
  | arr (xs : List JVal)
  | obj (kvs : List (String × JVal))

/-- `dict.get(key)` on a parsed JSON object (keys of a parsed Python dict
are unique, so first-match lookup is the dict lookup). -/
def lookupJ : List (String × JVal) → String → Option JVal
  | [], _ => none
  | (k, v) :: t, key => if k = key then some v else lookupJ t key

mutual

/-- `json.dumps` of a value.  Only `dumps` of `null` and of opaque
strings matter to the program's observable claims; numeric rendering
approximates Python's float repr (no claim depends on it). -/
def dumpsVal : JVal → String
  | .null => "null"
  | .bool true => "true"
  | .bool false => "false"
  | .num q => toString q
  | .str s => "\"" ++ s ++ "\""
  | .arr xs => "[" ++ dumpsArr xs ++ "]"
  | .obj kvs => "\x7b" ++ dumpsObj kvs ++ "\x7d"

/-- Comma-separated rendering of an array's elements. -/
def dumpsArr : List JVal → String
  | [] => ""
  | [x] => dumpsVal x
  | x :: y :: t => dumpsVal x ++ ", " ++ dumpsArr (y :: t)

/-- Comma-separated rendering of an object's key/value pairs. -/
def dumpsObj : List (String × JVal) → String
  | [] => ""
  | [(k, v)] => "\"" ++ k ++ "\": " ++ dumpsVal v
  | (k, v) :: x :: t => "\"" ++ k ++ "\": " ++ dumpsVal v ++ ", " ++ dumpsObj (x :: t)

end

/-- `json.dumps(data.get(key))`: a missing key serializes as `"null"`. -/
def dumps : Option JVal → String
  | none => "null"
  | some v => dumpsVal v

/-- One output row, with the eleven fields of the record dict built in the
upload loop of `src/main.py` (in insertion order). -/
structure ConfidenceRecord where
  bait : String
  prey : String
  iptm : Option JVal
  pairIptm : Option JVal
  fractionDisordered : Option JVal
  hashClash : Option JVal
  rankingScore : Option JVal
  chainIptm : String
  chainPtm : String
  chainPairIptm : String
  chainPairPaeMin : String

/-- The record dict's keys, in insertion order (the spreadsheet column
order; `iptm` is the 3rd column, column C). -/
def fieldOrder : List String :=
  ["Bait", "Prey", "iptm", "pair iptm", "fraction disordered", "hash clash",
   "ranking score", "chain iptm", "chain ptm", "chain pair iptm", "chain pair pae min"]

/-- Record construction from the upload loop: bait/prey from the parser
(both `"Unknown"` when extraction failed), scalar fields via `data.get`,
chain fields via `json.dumps(data.get(...))`. -/
def mkRecord (bp : Option (String × String)) (data : List (String × JVal)) :
    ConfidenceRecord where
  bait := match bp with | some (b, _) => b | none => "Unknown"
  prey := match bp with | some (_, p) => p | none => "Unknown"
  iptm := lookupJ data "iptm"
  pairIptm := lookupJ data "ptm"
  fractionDisordered := lookupJ data "fraction_disordered"
  hashClash := lookupJ data "has_clash"
  rankingScore := lookupJ data "ranking_score"
  chainIptm := dumps (lookupJ data "chain_iptm")
  chainPtm := dumps (lookupJ data "chain_ptm")
  chainPairIptm := dumps (lookupJ data "chain_pair_iptm")
  chainPairPaeMin := dumps (lookupJ data "chain_pair_pae_min")

/-! ## The upload-processing loop and the session state -/

/-- One ZIP entry: its internal name and the result of parsing its bytes
as JSON (`none` = `json.load` raised, i.e. malformed JSON). -/
def Entry : Type := String × Option JVal

/-- `item.endswith("summary_confidences_4.json")`. -/
def entryMatches (name : String) : Bool :=
  begins "summary_confidences_4.json".data.reverse name.data.reverse

/-- Processing of one ZIP entry inside the loop.
`none` = an uncaught exception escapes to the per-archive handler
(`data.get` on a non-dict JSON value raises `AttributeError`);
`some none` = the entry is skipped (name does not match the suffix, or
the JSON failed to decode — that error is caught per-entry);
`some (some r)` = record `r` is appended. -/
def processEntry (zipName : String) (e : Entry) : Option (Option ConfidenceRecord) :=
  if entryMatches e.1 then
    match e.2 with
    | none => some none
    | some (JVal.obj kvs) =>
        some (some (mkRecord
          (extract_bait_prey (zipName ++ "::" ++ String.mk (basenameL e.1.data))) kvs))
    | some _ => none
  else some none

/-- Walk the entries of an opened archive in order.  Returns the records
appended (they go to the session list as they are produced) and whether
the walk completed without an uncaught exception (only then is the
archive name marked processed). -/
def runEntries (zipName : String) : List Entry → List ConfidenceRecord × Bool
  | [] => ([], true)
  | e :: t =>
    match processEntry zipName e with
    | none => ([], false)
    | some none => runEntries zipName t
    | some (some r) =>
        let rest := runEntries zipName t
        (r :: rest.1, rest.2)

/-- `st.session_state`: the accumulated records and the names of the ZIP
files already processed. -/
structure SessionState where
  processed_records : List ConfidenceRecord
  processed_file_names : List String

/-- One iteration of the upload loop for a file with declared name `name`.
`zip = none` models `zipfile.ZipFile` raising (the bytes are not a valid
ZIP): the exception is caught before any record is appended and before the
name is marked.  A name already in `processed_file_names` is skipped. -/
def processUpload (st : SessionState) (name : String) (zip : Option (List Entry)) :
    SessionState :=
  if name ∈ st.processed_file_names then st
  else
    match zip with
    | none => st
    | some entries =>
        let res := runEntries name entries
        { processed_records := st.processed_records ++ res.1
          processed_file_names :=
            if res.2 then st.processed_file_names ++ [name]
            else st.processed_file_names }

/-! ## The report compiler -/

/-- The three background formats defined in the Generate Excel handler. -/
inductive CFormat where
  | lightYellow
  | lightBlue
  | lightGray
deriving DecidableEq

/-- First conditional format: `'criteria': '>', 'value': 0.79`
(`mkRat 79 100` is the rational 0.79). -/
def ruleA (q : ℚ) : Bool := decide (mkRat 79 100 < q)

/-- Second conditional format: `'criteria': 'between', 'minimum': 0.6,
'maximum': 0.79` (Excel `between` is inclusive on both bounds). -/
def ruleB (q : ℚ) : Bool := decide (mkRat 6 10 ≤ q ∧ q ≤ mkRat 79 100)

/-- Third conditional format: formula `=AND(C2>0.4, C2<0.6)`. -/
def ruleC (q : ℚ) : Bool := decide (mkRat 4 10 < q ∧ q < mkRat 6 10)

/-- The three conditional-format rules in the priority order in which the
code adds them to the worksheet. -/
def formatRules : List ((ℚ → Bool) × CFormat) :=
  [(ruleA, CFormat.lightYellow), (ruleB, CFormat.lightBlue), (ruleC, CFormat.lightGray)]

/-- Background color of a cell holding value `q`: the first rule (in
priority order) whose criterion holds, as Excel resolves overlapping
conditional-format fills. -/
def colorOfVal (q : ℚ) : Option CFormat :=
  (formatRules.find? (fun pr => pr.1 q)).map (fun pr => pr.2)

/-- Background color of an `iptm` cell; a blank cell (absent `iptm`)
evaluates as 0 in Excel's cell and formula criteria. -/
def colorOfCell : Option ℚ → Option CFormat
  | none => colorOfVal 0
  | some q => colorOfVal q

/-- The sort key pandas uses for `sort_values(by="iptm", ascending=False,
na_position='last')`: absent (NaN) sorts after every present value in a
descending sort, i.e. compares as bottom. -/
def iptmKey (r : ConfidenceRecord) : WithBot ℚ :=
  match r.iptm with
  | some (JVal.num q) => (q : WithBot ℚ)
  | _ => ⊥

/-- The record's `iptm` field is absent or numeric (the only shapes the
spreadsheet pipeline is specified on). -/
def numericIptm (r : ConfidenceRecord) : Bool :=
  match r.iptm with
  | none => true
  | some (JVal.num _) => true
  | some _ => false

/-- The contract of `df.sort_values(by="iptm", ascending=False)`: the
output is a permutation of the input arranged in descending `iptm` order
with absent values last.  The default sort kind is `quicksort`, so the
order of records with equal keys is NOT constrained. -/
def sortValuesRel (inp out : List ConfidenceRecord) : Prop :=
  out.Perm inp ∧ out.Pairwise (fun a b => iptmKey b ≤ iptmKey a)

/-- Stable insertion (descending by `iptmKey`): an element is placed
before the first element whose key is not larger. -/
def insD (a : ConfidenceRecord) : List ConfidenceRecord → List ConfidenceRecord
  | [] => [a]
  | b :: t => if iptmKey b ≤ iptmKey a then a :: b :: t else b :: insD a t

/-- The stable descending sort (reference implementation: a stable sort's
output is uniquely determined by the input order and the keys). -/
def sortD : List ConfidenceRecord → List ConfidenceRecord
  | [] => []
  | a :: t => insD a (sortD t)

/-- `out` is a stable rearrangement of `inp`: for every key, the records
carrying that key appear in the same order in both lists. -/
def StableBy (inp out : List ConfidenceRecord) : Prop :=
  ∀ k : WithBot ℚ,
    out.filter (fun r => decide (iptmKey r = k))
      = inp.filter (fun r => decide (iptmKey r = k))

/-- Lexicographic (code-point) comparison of character lists: Python's
string `<=`, the order in which pandas sorts string group keys. -/
def lexLe : List Char → List Char → Bool
  | [], _ => true
  | _ :: _, [] => false
  | a :: s, b :: t =>
    if a.toNat < b.toNat then true
    else if b.toNat < a.toNat then false
    else lexLe s t

/-- Python's `<=` on strings (lexicographic by code point). -/
def strLe (a b : String) : Bool := lexLe a.data b.data

/-- Ascending insertion for strings. -/
def insS (a : String) : List String → List String
  | [] => [a]
  | b :: t => if strLe a b then a :: b :: t else b :: insS a t

/-- Ascending sort for strings (pandas `groupby` with the default
`sort=True` iterates group keys in ascending order). -/
def sortStr : List String → List String
  | [] => []
  | a :: t => insS a (sortStr t)

/-- `df.groupby("Bait")`: one group per distinct `Bait` value, keys in
ascending order, each group keeping the dataframe's row order. -/
def groupBait (rows : List ConfidenceRecord) : List (String × List ConfidenceRecord) :=
  (sortStr (rows.map (fun r => r.bait)).dedup).map
    (fun k => (k, rows.filter (fun r => r.bait == k)))

/-- The distinct `Bait` values in first-seen order (what the claim says
the sheet order is). -/
def firstSeenKeys (rows : List ConfidenceRecord) : List String :=
  (rows.map (fun r => r.bait)).dedup

/-- `str(bait)[:31]`. -/
def truncate31 (s : String) : String := String.mk (s.data.take 31)

/-- One emitted worksheet: its display name and its data rows. -/
structure Sheet where
  name : String
  rows : List ConfidenceRecord

/-- The per-bait sheets the Generate Excel handler emits, in groupby
order, named `str(bait)[:31]`. -/
def buildSheets (rows : List ConfidenceRecord) : List Sheet :=
  (groupBait rows).map (fun kg => ⟨truncate31 kg.1, kg.2⟩)

/-- The row span of the conditional-format range `C2:C{num_rows}` with
`num_rows = len(group_df) + 1`. -/
def sheetFormatRange (s : Sheet) : Nat × Nat := (2, s.rows.length + 1)

/-- The spreadsheet column the conditional formats target: column C, the
3rd column. -/
def sheetIptmCol : Nat := 3

/-- The Generate Excel block runs only under
`if st.session_state.processed_records:`  — an empty record list renders
no button and produces no workbook. -/
def generateExcel (records : List ConfidenceRecord) : Option (List Sheet) :=
  if records.isEmpty then none
  else some (buildSheets (sortD records))

/-- The user-visible output of the Generate Excel section: nothing at all
when there are no records, otherwise the download control. -/
def generateVisible (records : List ConfidenceRecord) : List String :=
  match generateExcel records with
  | none => []
  | some _ => ["Download Excel File"]

/-! ## Spreadsheet cells, writing and the merge-path decoder -/

/-- A spreadsheet cell as written by `to_excel`. -/
inductive Cell where
  | empty
  | num (q : ℚ)
  | text (s : String)
  | boolC (b : Bool)

/-- How `to_excel` renders an optional JSON value: absent (NaN) becomes a
blank cell, scalars keep their type, nested values are rendered as text. -/
def cellOfOpt : Option JVal → Cell
  | none => Cell.empty
  | some JVal.null => Cell.empty
  | some (JVal.num q) => Cell.num q
  | some (JVal.str s) => Cell.text s
  | some (JVal.bool b) => Cell.boolC b
  | some v => Cell.text (dumpsVal v)

/-- One data row of a sheet, in the fixed 11-column order. -/
def writeRow (r : ConfidenceRecord) : List Cell :=
  [Cell.text r.bait, Cell.text r.prey, cellOfOpt r.iptm, cellOfOpt r.pairIptm,
   cellOfOpt r.fractionDisordered, cellOfOpt r.hashClash, cellOfOpt r.rankingScore,
   Cell.text r.chainIptm, Cell.text r.chainPtm, Cell.text r.chainPairIptm,
   Cell.text r.chainPairPaeMin]

/-- Decode one cell back to an optional JSON value (blank = absent). -/
def decodeCell : Cell → Option JVal
  | Cell.empty => none
  | Cell.num q => some (JVal.num q)
  | Cell.text s => some (JVal.str s)
  | Cell.boolC b => some (JVal.bool b)

/-- Read a cell that must hold text (the string columns of the schema). -/
def cellText : Cell → Option String
  | Cell.text s => some s
  | _ => none

/-- Modelled from the spec: the merge path ("records decoded back out of
externally supplied spreadsheet files of the same 11-column schema") is
not part of `src/main.py`; per §4.5/§6 of the spec it decodes one data row
of the 11-column schema back into a record, rejecting rows of the wrong
shape (schema mismatch). -/
def readRow : List Cell → Option ConfidenceRecord
  | [b, p, i, pi, fd, hc, rs, ci, cp, cpi, cpm] =>
    match cellText b, cellText p, cellText ci, cellText cp,
        cellText cpi, cellText cpm with
    | some bait, some prey, some s1, some s2, some s3, some s4 =>
        some
          { bait := bait, prey := prey, iptm := decodeCell i,
            pairIptm := decodeCell pi, fractionDisordered := decodeCell fd,
            hashClash := decodeCell hc, rankingScore := decodeCell rs,
            chainIptm := s1, chainPtm := s2, chainPairIptm := s3,
            chainPairPaeMin := s4 }
    | _, _, _, _, _, _ => none
  | _ => none

/-- A small record builder used to instantiate witnesses and
counterexamples on concrete inputs. -/
def mkSimple (b p : String) (q : Option ℚ) : ConfidenceRecord where
  bait := b
  prey := p
  iptm := q.map JVal.num
  pairIptm := none
  fractionDisordered := none
  hashClash := none
  rankingScore := none
  chainIptm := "null"
  chainPtm := "null"
  chainPairIptm := "null"
  chainPairPaeMin := "null"

/-! ## Helper lemmas -/

theorem colorOfVal_eq_ite (q : ℚ) :
    colorOfVal q =
      if ruleA q then some CFormat.lightYellow
      else if ruleB q then some CFormat.lightBlue
      else if ruleC q then some CFormat.lightGray
      else none := by
  unfold colorOfVal formatRules
  cases hA : ruleA q <;> cases hB : ruleB q <;> cases hC : ruleC q <;>
    simp [List.find?, hA, hB, hC]

theorem colorOfVal_cases (q : ℚ) :
    (colorOfVal q = some CFormat.lightYellow ↔ mkRat 79 100 < q) ∧
    (colorOfVal q = some CFormat.lightBlue ↔ (mkRat 6 10 ≤ q ∧ q ≤ mkRat 79 100)) ∧
    (colorOfVal q = some CFormat.lightGray ↔ (mkRat 4 10 < q ∧ q < mkRat 6 10)) ∧
    (colorOfVal q = none ↔ q ≤ mkRat 4 10) := by
  have c1 : (mkRat 6 10 : ℚ) < mkRat 79 100 := by decide
  have c2 : (mkRat 4 10 : ℚ) < mkRat 6 10 := by decide
  rw [colorOfVal_eq_ite]
  by_cases h1 : mkRat 79 100 < q
  · have e1 : ruleA q = true := by simpa [ruleA] using h1
    refine ⟨?_, ?_, ?_, ?_⟩ <;>
      simp [e1] <;> (intros; first | (constructor <;> linarith) | linarith)
  · have e1 : ruleA q = false := by simpa [ruleA] using h1
    by_cases h2 : mkRat 6 10 ≤ q
    · have e2 : ruleB q = true := by
        simp [ruleB]
        constructor <;> linarith
      refine ⟨?_, ?_, ?_, ?_⟩ <;>
        simp [e1, e2] <;> (intros; first | (constructor <;> linarith) | linarith)
    · have e2 : ruleB q = false := by
        simp [ruleB]
        intro h
        linarith
      by_cases h3 : mkRat 4 10 < q
      · have e3 : ruleC q = true := by
          simp [ruleC]
          constructor <;> linarith
        refine ⟨?_, ?_, ?_, ?_⟩ <;>
          simp [e1, e2, e3] <;> (intros; first | (constructor <;> linarith) | linarith)
      · have e3 : ruleC q = false := by
          simp [ruleC]
          intro h
          linarith
        refine ⟨?_, ?_, ?_, ?_⟩ <;>
          simp [e1, e2, e3] <;> (intros; first | (constructor <;> linarith) | linarith)

/-! ## Claim theorems -/

/-- **C1**: the compiler applies exactly three mutually exclusive
background-color rules to the `iptm` column (3rd column, column C) of each
emitted sheet, rows `2..N`: color A (light yellow) iff `iptm > 0.79`,
color B (light blue) iff `0.60 <= iptm <= 0.79` (inclusive), color C
(light gray) iff `0.40 < iptm < 0.60` (strict), and no color when
`iptm <= 0.40` or absent. -/
theorem claim_C1_conditional_formatting :
    (∀ q : ℚ, (ruleA q && ruleB q) = false ∧ (ruleA q && ruleC q) = false ∧
      (ruleB q && ruleC q) = false) ∧
    (∀ q : ℚ,
      (colorOfVal q = some CFormat.lightYellow ↔ mkRat 79 100 < q) ∧
      (colorOfVal q = some CFormat.lightBlue ↔ (mkRat 6 10 ≤ q ∧ q ≤ mkRat 79 100)) ∧
      (colorOfVal q = some CFormat.lightGray ↔ (mkRat 4 10 < q ∧ q < mkRat 6 10)) ∧
      (colorOfVal q = none ↔ q ≤ mkRat 4 10)) ∧
    colorOfCell none = none ∧
    formatRules.length = 3 ∧
    fieldOrder.get? 2 = some "iptm" ∧
    (∀ rows : List ConfidenceRecord, ∀ s, s ∈ buildSheets rows →
      sheetFormatRange s = (2, s.rows.length + 1) ∧ sheetIptmCol = 3) := by
  refine ⟨?_, colorOfVal_cases, by decide, rfl, rfl, fun rows s _ => ⟨rfl, rfl⟩⟩
  intro q
  have c1 : (mkRat 6 10 : ℚ) < mkRat 79 100 := by decide
  have c2 : (mkRat 4 10 : ℚ) < mkRat 6 10 := by decide
  refine ⟨?_, ?_, ?_⟩ <;>
    · simp [ruleA, ruleB, ruleC]
      intros
      linarith

/-- Witness for C1 on a concrete sheet: the single-row sheet for bait
`"a"` is formatted on rows 2..2 of column C. -/
theorem claim_C1_conditional_formatting_witness :
    sheetFormatRange ⟨"a", [mkSimple "a" "p" (some 0.9)]⟩ = (2, 2) ∧ sheetIptmCol = 3 :=
  claim_C1_conditional_formatting.2.2.2.2.2 [mkSimple "a" "p" (some 0.9)]
    ⟨"a", [mkSimple "a" "p" (some 0.9)]⟩
    (by rw [show buildSheets [mkSimple "a" "p" (some 0.9)]
          = [⟨"a", [mkSimple "a" "p" (some 0.9)]⟩] from rfl]
        exact List.mem_singleton_self _)

/-- **C2** (counterexample): the claim says `iptm = 0.79` gets color A
(light yellow); the code's first rule is strict (`> 0.79`), so 0.79 falls
to the inclusive `between` rule and gets color B (light blue). -/
theorem claim_C2_boundaries_counterexample :
    ¬ colorOfVal (mkRat 79 100) = some CFormat.lightYellow := by decide

/-- **C2** (amended): at the boundary values the assigned colors are:
B for 0.79 (not A), A for 0.80, B for 0.60, none for 0.40, C for 0.41,
C for 0.599. -/
theorem claim_C2_boundaries_amended :
    colorOfVal (mkRat 79 100) = some CFormat.lightBlue ∧
    colorOfVal (mkRat 8 10) = some CFormat.lightYellow ∧
    colorOfVal (mkRat 6 10) = some CFormat.lightBlue ∧
    colorOfVal (mkRat 4 10) = none ∧
    colorOfVal (mkRat 41 100) = some CFormat.lightGray ∧
    colorOfVal (mkRat 599 1000) = some CFormat.lightGray := by decide

/-- **C4**: missing optional keys map to the explicit absent value (the
four serialized chain fields render an absent value as the text `"null"`),
never to zero and never to an error; the concrete input
`{"iptm": 0.85, "ptm": 0.5}` yields `iptm = 0.85`, `pair iptm = 0.5` and
all other optional fields absent; failed bait/prey extraction yields the
literal `"Unknown"` for both. -/
theorem claim_C4_record_extraction :
    (∀ (bp : Option (String × String)) (data : List (String × JVal)),
      (lookupJ data "iptm" = none → (mkRecord bp data).iptm = none) ∧
      (lookupJ data "ptm" = none → (mkRecord bp data).pairIptm = none) ∧
      (lookupJ data "fraction_disordered" = none →
        (mkRecord bp data).fractionDisordered = none) ∧
      (lookupJ data "has_clash" = none → (mkRecord bp data).hashClash = none) ∧
      (lookupJ data "ranking_score" = none → (mkRecord bp data).rankingScore = none) ∧
      (lookupJ data "chain_iptm" = none → (mkRecord bp data).chainIptm = "null") ∧
      (lookupJ data "chain_ptm" = none → (mkRecord bp data).chainPtm = "null") ∧
      (lookupJ data "chain_pair_iptm" = none →
        (mkRecord bp data).chainPairIptm = "null") ∧
      (lookupJ data "chain_pair_pae_min" = none →
        (mkRecord bp data).chainPairPaeMin = "null")) ∧
    (∀ bp : Option (String × String),
      (mkRecord bp [("iptm", JVal.num 0.85), ("ptm", JVal.num 0.5)]).iptm
          = some (JVal.num 0.85) ∧
      (mkRecord bp [("iptm", JVal.num 0.85), ("ptm", JVal.num 0.5)]).pairIptm
          = some (JVal.num 0.5) ∧
      (mkRecord bp [("iptm", JVal.num 0.85), ("ptm", JVal.num 0.5)]).fractionDisordered
          = none ∧
      (mkRecord bp [("iptm", JVal.num 0.85), ("ptm", JVal.num 0.5)]).hashClash = none ∧
      (mkRecord bp [("iptm", JVal.num 0.85), ("ptm", JVal.num 0.5)]).rankingScore
          = none ∧
      (mkRecord bp [("iptm", JVal.num 0.85), ("ptm", JVal.num 0.5)]).chainIptm
          = "null" ∧
      (mkRecord bp [("iptm", JVal.num 0.85), ("ptm", JVal.num 0.5)]).chainPtm
          = "null" ∧
      (mkRecord bp [("iptm", JVal.num 0.85), ("ptm", JVal.num 0.5)]).chainPairIptm
          = "null" ∧
      (mkRecord bp [("iptm", JVal.num 0.85), ("ptm", JVal.num 0.5)]).chainPairPaeMin
          = "null") ∧
    (∀ data : List (String × JVal),
      (mkRecord none data).bait = "Unknown" ∧ (mkRecord none data).prey = "Unknown") := by
  refine ⟨fun bp data => ?_, fun bp => ?_, fun data => ⟨rfl, rfl⟩⟩
  · refine ⟨fun h => h, fun h => h, fun h => h, fun h => h, fun h => h,
      ?_, ?_, ?_, ?_⟩ <;>
      · intro h
        show dumps _ = "null"
        rw [h]
        rfl
  · exact ⟨rfl, rfl, rfl, rfl, rfl, rfl, rfl, rfl, rfl⟩

/-- Witness for C4 at a concrete empty JSON object. -/
theorem claim_C4_record_extraction_witness :
    (mkRecord none []).iptm = none ∧ (mkRecord none []).chainIptm = "null" :=
  ⟨(claim_C4_record_extraction.1 none []).1 rfl,
    (claim_C4_record_extraction.1 none []).2.2.2.2.2.1 rfl⟩

/-- **C7**: after a successful processing of an archive, a second upload
with the same declared name is a no-op: the session state — in
particular the accumulated record list — is unchanged. -/
theorem claim_C7_duplicate_upload_noop (st : SessionState) (name : String)
    (entries : List Entry) (z2 : Option (List Entry))
    (h : (runEntries name entries).2 = true) :
    processUpload (processUpload st name (some entries)) name z2
      = processUpload st name (some entries) := by
  by_cases hm : name ∈ st.processed_file_names
  · simp [processUpload, hm]
  · have hstep : processUpload st name (some entries)
        = { processed_records := st.processed_records ++ (runEntries name entries).1,
            processed_file_names := st.processed_file_names ++ [name] } := by
      simp [processUpload, hm, h]
    rw [hstep]
    simp [processUpload]

/-- Witness for C7: a concrete archive with one matching entry, uploaded
twice under the name `a.zip`. -/
theorem claim_C7_duplicate_upload_noop_witness :
    processUpload
        (processUpload ⟨[], []⟩ "a.zip"
          (some [("bait_X_prey_Y_summary_confidences_4.json",
            some (JVal.obj [("iptm", JVal.num 0.9)]))]))
        "a.zip"
        (some [("bait_X_prey_Y_summary_confidences_4.json",
          some (JVal.obj [("iptm", JVal.num 0.9)]))])
      = processUpload ⟨[], []⟩ "a.zip"
          (some [("bait_X_prey_Y_summary_confidences_4.json",
            some (JVal.obj [("iptm", JVal.num 0.9)]))]) :=
  claim_C7_duplicate_upload_noop ⟨[], []⟩ "a.zip" _ _ rfl

/-- **C8** (amended): with an empty accumulated record list the Generate
Excel section produces no spreadsheet and renders nothing at all — in
particular no "nothing to export" message (the export control is simply
absent). -/
theorem claim_C8_empty_export_amended :
    generateExcel ([] : List ConfidenceRecord) = none ∧
    generateVisible ([] : List ConfidenceRecord) = [] :=
  ⟨rfl, rfl⟩

/-- **C8** (counterexample): no "nothing to export" signal is visible on
empty input, contradicting the claimed user-visible signal. -/
theorem claim_C8_empty_export_counterexample :
    ¬ ("nothing to export" ∈ generateVisible ([] : List ConfidenceRecord)) := by
  decide

/-- **C9**: an archive whose bytes fail to open as a ZIP leaves the
session state exactly unchanged, and a later upload with the same name is
processed (its records are appended) rather than skipped. -/
theorem claim_C9_bad_zip_unchanged (st : SessionState) (name : String)
    (es : List Entry) :
    processUpload st name none = st ∧
    (name ∉ st.processed_file_names →
      (processUpload (processUpload st name none) name (some es)).processed_records
        = st.processed_records ++ (runEntries name es).1) := by
  have h1 : processUpload st name none = st := by
    by_cases hm : name ∈ st.processed_file_names <;> simp [processUpload, hm]
  refine ⟨h1, fun hm => ?_⟩
  rw [h1]
  simp [processUpload, hm]

/-- Witness for C9: a concrete bad upload followed by a good one under
the same name. -/
theorem claim_C9_bad_zip_unchanged_witness :
    processUpload ⟨[], []⟩ "a.zip" none = (⟨[], []⟩ : SessionState) ∧
    ((processUpload (processUpload ⟨[], []⟩ "a.zip" none) "a.zip"
        (some [("bait_X_prey_Y_summary_confidences_4.json",
          some (JVal.obj [("iptm", JVal.num 0.9)]))])).processed_records
      = ([] : List ConfidenceRecord)
        ++ (runEntries "a.zip"
            [("bait_X_prey_Y_summary_confidences_4.json",
              some (JVal.obj [("iptm", JVal.num 0.9)]))]).1) :=
  ⟨(claim_C9_bad_zip_unchanged ⟨[], []⟩ "a.zip"
      [("bait_X_prey_Y_summary_confidences_4.json",
        some (JVal.obj [("iptm", JVal.num 0.9)]))]).1,
    (claim_C9_bad_zip_unchanged ⟨[], []⟩ "a.zip"
      [("bait_X_prey_Y_summary_confidences_4.json",
        some (JVal.obj [("iptm", JVal.num 0.9)]))]).2 (by simp)⟩

theorem insD_perm (a : ConfidenceRecord) (l : List ConfidenceRecord) :
    (insD a l).Perm (a :: l) := by
  induction l with
  | nil => exact List.Perm.refl _
  | cons b t ih =>
    by_cases h : iptmKey b ≤ iptmKey a
    · rw [insD, if_pos h]
    · rw [insD, if_neg h]
      exact (ih.cons b).trans (List.Perm.swap a b t)

theorem sortD_perm (l : List ConfidenceRecord) : (sortD l).Perm l := by
  induction l with
  | nil => exact List.Perm.refl _
  | cons a t ih => exact (insD_perm a (sortD t)).trans (ih.cons a)

theorem insD_sorted (a : ConfidenceRecord) (l : List ConfidenceRecord)
    (h : l.Pairwise (fun x y => iptmKey y ≤ iptmKey x)) :
    (insD a l).Pairwise (fun x y => iptmKey y ≤ iptmKey x) := by
  induction l with
  | nil => simp [insD]
  | cons b t ih =>
    rw [List.pairwise_cons] at h
    by_cases hle : iptmKey b ≤ iptmKey a
    · rw [insD, if_pos hle]
      refine List.Pairwise.cons ?_ (List.Pairwise.cons h.1 h.2)
      intro y hy
      rcases List.mem_cons.mp hy with rfl | hy'
      · exact hle
      · exact le_trans (h.1 y hy') hle
    · rw [insD, if_neg hle]
      refine List.Pairwise.cons ?_ (ih h.2)
      intro y hy
      rcases List.mem_cons.mp ((insD_perm a t).mem_iff.mp hy) with rfl | hy'
      · exact le_of_not_le hle
      · exact h.1 y hy'

theorem sortD_sorted (l : List ConfidenceRecord) :
    (sortD l).Pairwise (fun x y => iptmKey y ≤ iptmKey x) := by
  induction l with
  | nil => simp [sortD]
  | cons a t ih => exact insD_sorted a (sortD t) ih

theorem iptmKey_eq_bot_iff (r : ConfidenceRecord) (h : numericIptm r = true) :
    iptmKey r = ⊥ ↔ r.iptm = none := by
  cases hr : r.iptm with
  | none => simp [iptmKey, hr]
  | some v =>
    cases v <;> simp [numericIptm, hr] at h <;> simp [iptmKey, hr]

/-- **C5** (counterexample): the relation realized by
`df.sort_values(by="iptm", ascending=False)` (default, unstable
`quicksort`) admits an output that reverses two equal-`iptm` records, so
the code does not guarantee a stable sort. -/
theorem claim_C5_sort_counterexample :
    sortValuesRel
      [mkSimple "a" "pa" (some (mkRat 1 2)), mkSimple "b" "pb" (some (mkRat 1 2))]
      [mkSimple "b" "pb" (some (mkRat 1 2)), mkSimple "a" "pa" (some (mkRat 1 2))] ∧
    ¬ StableBy
      [mkSimple "a" "pa" (some (mkRat 1 2)), mkSimple "b" "pb" (some (mkRat 1 2))]
      [mkSimple "b" "pb" (some (mkRat 1 2)), mkSimple "a" "pa" (some (mkRat 1 2))] := by
  constructor
  · refine ⟨List.Perm.swap _ _ _, List.Pairwise.cons ?_ (List.pairwise_singleton _ _)⟩
    intro y hy
    rcases List.mem_singleton.mp hy with rfl
    exact le_of_eq rfl
  · intro h
    have h2 : [mkSimple "b" "pb" (some (mkRat 1 2)), mkSimple "a" "pa" (some (mkRat 1 2))]
        = [mkSimple "a" "pa" (some (mkRat 1 2)), mkSimple "b" "pb" (some (mkRat 1 2))] :=
      h ((mkRat 1 2 : ℚ) : WithBot ℚ)
    have h3 : (mkSimple "b" "pb" (some (mkRat 1 2))).bait
        = (mkSimple "a" "pa" (some (mkRat 1 2))).bait :=
      congrArg ConfidenceRecord.bait (Option.some.inj (congrArg List.head? h2))
    exact absurd h3 (by decide)

/-- **C5** (amended): the sort step arranges the records in descending
`iptm` order with every absent-`iptm` record after every present-`iptm`
record, as a permutation of the input; the relative order of records with
equal `iptm` is not guaranteed (pandas' default sort kind is the unstable
`quicksort`). -/
theorem claim_C5_sort_amended :
    (∀ inp, sortValuesRel inp (sortD inp)) ∧
    (∀ inp out, sortValuesRel inp out → (∀ r ∈ out, numericIptm r = true) →
      out.length = inp.length ∧
      ∀ i j (hi : i < out.length) (hj : j < out.length),
        (out.get ⟨i, hi⟩).iptm = none → (out.get ⟨j, hj⟩).iptm ≠ none → j < i) := by
  refine ⟨fun inp => ⟨sortD_perm inp, sortD_sorted inp⟩, fun inp out h hn => ?_⟩
  refine ⟨h.1.length_eq, fun i j hi hj hbot hpres => ?_⟩
  by_contra hij
  have hij' : i ≤ j := not_lt.mp hij
  have hkey_i : iptmKey (out.get ⟨i, hi⟩) = ⊥ :=
    (iptmKey_eq_bot_iff _ (hn _ (List.get_mem out i hi))).mpr hbot
  rcases eq_or_lt_of_le hij' with rfl | hlt
  · exact hpres hbot
  · have := List.pairwise_iff_get.mp h.2 ⟨i, hi⟩ ⟨j, hj⟩ hlt
    rw [hkey_i] at this
    exact hpres
      ((iptmKey_eq_bot_iff _ (hn _ (List.get_mem out j hj))).mp (le_bot_iff.mp this))

/-- Witness for C5 (amended) at a concrete sorted pair: a present value
before an absent one. -/
theorem claim_C5_sort_amended_witness :
    ([mkSimple "b" "pb" (some (mkRat 1 2)), mkSimple "a" "pa" none].length
      = [mkSimple "a" "pa" none, mkSimple "b" "pb" (some (mkRat 1 2))].length) ∧
    (∀ i j (hi : i < [mkSimple "b" "pb" (some (mkRat 1 2)),
        mkSimple "a" "pa" none].length)
      (hj : j < [mkSimple "b" "pb" (some (mkRat 1 2)), mkSimple "a" "pa" none].length),
      ([mkSimple "b" "pb" (some (mkRat 1 2)), mkSimple "a" "pa" none].get
        ⟨i, hi⟩).iptm = none →
      ([mkSimple "b" "pb" (some (mkRat 1 2)), mkSimple "a" "pa" none].get
        ⟨j, hj⟩).iptm ≠ none → j < i) :=
  claim_C5_sort_amended.2
    [mkSimple "a" "pa" none, mkSimple "b" "pb" (some (mkRat 1 2))]
    [mkSimple "b" "pb" (some (mkRat 1 2)), mkSimple "a" "pa" none]
    ⟨List.Perm.swap _ _ _,
      List.Pairwise.cons
        (fun y hy => by
          rcases List.mem_singleton.mp hy with rfl
          exact bot_le)
        (List.pairwise_singleton _ _)⟩
    (by
      intro r hr
      rcases List.mem_cons.mp hr with rfl | hr'
      · rfl
      · rcases List.mem_singleton.mp hr' with rfl
        rfl)

theorem lexLe_total (s : List Char) : ∀ t, lexLe s t = true ∨ lexLe t s = true := by
  induction s with
  | nil => intro t; left; rfl
  | cons a s ih =>
    intro t
    cases t with
    | nil => right; rfl
    | cons b t' =>
      rcases Nat.lt_trichotomy a.toNat b.toNat with h | h | h
      · left
        simp [lexLe, h]
      · have h1 : ¬ a.toNat < b.toNat := by omega
        have h2 : ¬ b.toNat < a.toNat := by omega
        rcases ih t' with hl | hr
        · left
          simp [lexLe, h1, h2, hl]
        · right
          simp [lexLe, h1, h2, hr]
      · right
        simp [lexLe, h]

theorem lexLe_trans {s t u : List Char} (h1 : lexLe s t = true)
    (h2 : lexLe t u = true) : lexLe s u = true := by
  induction s generalizing t u with
  | nil => rfl
  | cons a s ih =>
    cases t with
    | nil => simp [lexLe] at h1
    | cons b t' =>
      cases u with
      | nil => simp [lexLe] at h2
      | cons c u' =>
        rcases Nat.lt_trichotomy a.toNat b.toNat with hab | hab | hab
        · rcases Nat.lt_trichotomy b.toNat c.toNat with hbc | hbc | hbc
          · simp [lexLe, show a.toNat < c.toNat by omega]
          · simp [lexLe, show a.toNat < c.toNat by omega]
          · simp [lexLe, show ¬ b.toNat < c.toNat by omega, hbc] at h2
        · rcases Nat.lt_trichotomy b.toNat c.toNat with hbc | hbc | hbc
          · simp [lexLe, show a.toNat < c.toNat by omega]
          · have h1' : lexLe s t' = true := by
              simpa [lexLe, show ¬ a.toNat < b.toNat by omega,
                show ¬ b.toNat < a.toNat by omega] using h1
            have h2' : lexLe t' u' = true := by
              simpa [lexLe, show ¬ b.toNat < c.toNat by omega,
                show ¬ c.toNat < b.toNat by omega] using h2
            simp [lexLe, show ¬ a.toNat < c.toNat by omega,
              show ¬ c.toNat < a.toNat by omega, ih h1' h2']
          · simp [lexLe, show ¬ b.toNat < c.toNat by omega, hbc] at h2
        · simp [lexLe, show ¬ a.toNat < b.toNat by omega, hab] at h1

theorem strLe_total (a b : String) : strLe a b = true ∨ strLe b a = true :=
  lexLe_total a.data b.data

theorem strLe_trans {a b c : String} (h1 : strLe a b = true)
    (h2 : strLe b c = true) : strLe a c = true :=
  lexLe_trans h1 h2

theorem insS_perm (a : String) (l : List String) : (insS a l).Perm (a :: l) := by
  induction l with
  | nil => exact List.Perm.refl _
  | cons b t ih =>
    by_cases h : strLe a b = true
    · rw [insS, if_pos h]
    · rw [insS, if_neg h]
      exact (ih.cons b).trans (List.Perm.swap a b t)

theorem sortStr_perm (l : List String) : (sortStr l).Perm l := by
  induction l with
  | nil => exact List.Perm.refl _
  | cons a t ih => exact (insS_perm a (sortStr t)).trans (ih.cons a)

theorem insS_sorted (a : String) (l : List String)
    (h : l.Pairwise (fun x y => strLe x y = true)) :
    (insS a l).Pairwise (fun x y => strLe x y = true) := by
  induction l with
  | nil => simp [insS]
  | cons b t ih =>
    rw [List.pairwise_cons] at h
    by_cases hle : strLe a b = true
    · rw [insS, if_pos hle]
      refine List.Pairwise.cons ?_ (List.Pairwise.cons h.1 h.2)
      intro y hy
      rcases List.mem_cons.mp hy with rfl | hy'
      · exact hle
      · exact strLe_trans hle (h.1 y hy')
    · rw [insS, if_neg hle]
      refine List.Pairwise.cons ?_ (ih h.2)
      intro y hy
      rcases List.mem_cons.mp ((insS_perm a t).mem_iff.mp hy) with rfl | hy'
      · exact (strLe_total b y).resolve_right hle
      · exact h.1 y hy'

theorem sortStr_sorted (l : List String) :
    (sortStr l).Pairwise (fun x y => strLe x y = true) := by
  induction l with
  | nil => simp [sortStr]
  | cons a t ih => exact insS_sorted a (sortStr t) ih

theorem groupBait_keys (rows : List ConfidenceRecord) :
    (groupBait rows).map Prod.fst = sortStr (rows.map (fun r => r.bait)).dedup := by
  have hcomp : (Prod.fst ∘ fun k : String =>
      (k, rows.filter (fun r => r.bait == k))) = id := funext fun k => rfl
  simp [groupBait, List.map_map, hcomp]

/-- **C6** (counterexample): with baits first seen in the order
`"b", "a"`, the sheets come out in the order `"a", "b"` — pandas'
`groupby` iterates keys in ascending sorted order, not first-seen
order. -/
theorem claim_C6_sheet_order_counterexample :
    (buildSheets [mkSimple "b" "p" none, mkSimple "a" "p" none]).map Sheet.name
      ≠ (firstSeenKeys [mkSimple "b" "p" none, mkSimple "a" "p" none]).map
          truncate31 := by
  decide

/-- **C6** (amended): the compiler partitions the (sorted) record sequence
into groups keyed by `Bait` — each group is the subsequence of rows
carrying that key, in unchanged order — and emits one sheet per group in
ascending sorted order of the distinct `Bait` keys (not first-seen order),
naming each sheet with the key truncated to 31 characters. -/
theorem claim_C6_groupby_amended (rows : List ConfidenceRecord) :
    ((groupBait rows).map Prod.fst).Pairwise (fun x y => strLe x y = true) ∧
    ((groupBait rows).map Prod.fst).Nodup ∧
    (∀ k, k ∈ (groupBait rows).map Prod.fst ↔ k ∈ rows.map (fun r => r.bait)) ∧
    (∀ kg, kg ∈ groupBait rows →
      kg.2 = rows.filter (fun r => r.bait == kg.1) ∧ kg.2.Sublist rows) ∧
    (buildSheets rows).map Sheet.name
      = ((groupBait rows).map Prod.fst).map truncate31 := by
  refine ⟨?_, ?_, ?_, ?_, ?_⟩
  · rw [groupBait_keys]
    exact sortStr_sorted _
  · rw [groupBait_keys]
    exact (sortStr_perm _).symm.nodup (List.nodup_dedup _)
  · intro k
    rw [groupBait_keys, (sortStr_perm _).mem_iff, List.mem_dedup]
  · intro kg hk
    obtain ⟨k, hk', rfl⟩ := List.mem_map.mp hk
    exact ⟨rfl, List.filter_sublist _⟩
  · simp [buildSheets, List.map_map, Function.comp]

/-- Witness for C6 (amended) on a concrete one-record list. -/
theorem claim_C6_groupby_amended_witness :
    ("a", [mkSimple "a" "p" none]).2
        = [mkSimple "a" "p" none].filter (fun r => r.bait == ("a", [mkSimple "a" "p" none]).1) ∧
    ("a", [mkSimple "a" "p" none]).2.Sublist [mkSimple "a" "p" none] :=
  (claim_C6_groupby_amended [mkSimple "a" "p" none]).2.2.2.1
    ("a", [mkSimple "a" "p" none])
    (by
      rw [show groupBait [mkSimple "a" "p" none]
          = [("a", [mkSimple "a" "p" none])] from rfl]
      exact List.mem_singleton_self _)

/-- **C10**: a record written to a sheet row and decoded back through the
merge path (11-column schema) reproduces the same `Bait`, `Prey` and
`iptm` values, and the four chain fields round-trip unchanged as text
(`iptm` being absent or numeric, as the schema specifies). -/
theorem claim_C10_roundtrip (r : ConfidenceRecord)
    (h : r.iptm = none ∨ ∃ q, r.iptm = some (JVal.num q)) :
    ∃ r', readRow (writeRow r) = some r' ∧
      r'.bait = r.bait ∧ r'.prey = r.prey ∧ r'.iptm = r.iptm ∧
      r'.chainIptm = r.chainIptm ∧ r'.chainPtm = r.chainPtm ∧
      r'.chainPairIptm = r.chainPairIptm ∧ r'.chainPairPaeMin = r.chainPairPaeMin := by
  refine ⟨_, rfl, rfl, rfl, ?_, rfl, rfl, rfl, rfl⟩
  show decodeCell (cellOfOpt r.iptm) = r.iptm
  rcases h with h | ⟨q, h⟩ <;> rw [h] <;> rfl

/-! ## Lemmas about the regex matcher (towards C3) -/

theorem begins_iff (p : List Char) : ∀ l, begins p l = true ↔ ∃ t, l = p ++ t := by
  induction p with
  | nil =>
    intro l
    simp [begins]
  | cons a s ih =>
    intro l
    cases l with
    | nil =>
      simp [begins]
    | cons b t =>
      show (a == b && begins s t) = true ↔ _
      rw [Bool.and_eq_true, beq_iff_eq, ih t]
      constructor
      · rintro ⟨rfl, u, rfl⟩
        exact ⟨u, rfl⟩
      · rintro ⟨u, hu⟩
        injection hu with h1 h2
        exact ⟨h1.symm, u, h2⟩

theorem begins_append (x tail : List Char) : begins x (x ++ tail) = true :=
  (begins_iff x _).mpr ⟨tail, rfl⟩

theorem runLen_le_length (l : List Char) : runLen l ≤ l.length :=
  (List.takeWhile_sublist _).length_le

theorem le_runLen_iff : ∀ (l : List Char) (j : Nat),
    j ≤ runLen l ↔ (j ≤ l.length ∧ ∀ c ∈ l.take j, isSep c = false) := by
  intro l
  induction l with
  | nil =>
    intro j
    simp [runLen]
  | cons a t ih =>
    intro j
    cases j with
    | zero => simp
    | succ j' =>
      by_cases hsep : isSep a = true
      · have h0 : runLen (a :: t) = 0 := by
          simp [runLen, List.takeWhile_cons, hsep]
        rw [h0]
        simp [List.take_succ_cons, hsep]
      · have hsep' : isSep a = false := Bool.eq_false_iff.mpr hsep
        have h0 : runLen (a :: t) = runLen t + 1 := by
          simp [runLen, List.takeWhile_cons, hsep']
        rw [h0, Nat.succ_le_succ_iff, ih j']
        simp [List.take_succ_cons, hsep', Nat.succ_le_succ_iff]

theorem length_take_of_le {l : List Char} {j : Nat} (h : j ≤ l.length) :
    (l.take j).length = j := by
  rw [List.length_take]
  exact Nat.min_eq_left h

theorem candB_shift (l : List Char) (i : Nat) (B P : List Char) :
    candB l i B P = candB (l.drop i) 0 B P := by
  have h1 : (l.drop i).drop (0 + 11 + B.length + P.length)
      = l.drop (i + 11 + B.length + P.length) := by
    rw [List.drop_drop]
    exact congrArg l.drop (by omega)
  simp [candB, List.drop_zero, h1]

theorem candB_iff (m B P : List Char) :
    candB m 0 B P = true ↔
      B ≠ [] ∧ P ≠ [] ∧ (∀ c ∈ B, isSep c = false) ∧ (∀ c ∈ P, isSep c = false) ∧
      ∃ tail, m = baitStr ++ (B ++ (preyStr ++ (P ++ tail)))
        ∧ begins lookStr tail = true := by
  have hb5 : baitStr.length = 5 := rfl
  have hp6 : preyStr.length = 6 := rfl
  unfold candB
  rw [Bool.and_eq_true, Bool.and_eq_true, Bool.and_eq_true, Bool.and_eq_true,
    Bool.and_eq_true]
  constructor
  · rintro ⟨⟨⟨⟨⟨h1, h2⟩, h3⟩, h4⟩, h5⟩, h6⟩
    rw [List.drop_zero] at h5
    obtain ⟨tail, htl⟩ := (begins_iff _ _).mp h5
    have hm : m = baitStr ++ (B ++ (preyStr ++ (P ++ tail))) := by
      rw [htl]
      simp [List.append_assoc]
    have hdd : m.drop (0 + 11 + B.length + P.length) = tail := by
      rw [htl]
      exact List.drop_left' (by simp [List.length_append, hb5, hp6]; omega)
    rw [hdd] at h6
    refine ⟨?_, ?_, ?_, ?_, tail, hm, h6⟩
    · simpa using h1
    · simpa using h2
    · intro c hc
      simpa using List.all_eq_true.mp h3 c hc
    · intro c hc
      simpa using List.all_eq_true.mp h4 c hc
  · rintro ⟨h1, h2, h3, h4, tail, rfl, h6⟩
    have hdd : (baitStr ++ (B ++ (preyStr ++ (P ++ tail)))).drop
        (0 + 11 + B.length + P.length) = tail := by
      rw [show baitStr ++ (B ++ (preyStr ++ (P ++ tail)))
          = (baitStr ++ (B ++ (preyStr ++ P))) ++ tail by simp [List.append_assoc]]
      exact List.drop_left' (by simp [List.length_append, hb5, hp6]; omega)
    refine ⟨⟨⟨⟨⟨?_, ?_⟩, ?_⟩, ?_⟩, ?_⟩, ?_⟩
    · simpa using h1
    · simpa using h2
    · exact List.all_eq_true.mpr fun c hc => by simpa using h3 c hc
    · exact List.all_eq_true.mpr fun c hc => by simpa using h4 c hc
    · rw [List.drop_zero]
      exact (begins_iff _ _).mpr ⟨tail, by simp [List.append_assoc]⟩
    · rw [hdd]
      exact h6

theorem tryG2_eq_none (r : List Char) : ∀ m, tryG2 r m = none ↔
    ∀ k, 1 ≤ k → k ≤ m → begins lookStr (r.drop k) = false := by
  intro m
  induction m with
  | zero =>
    constructor
    · intro _ k h1 h2
      omega
    · intro _
      rfl
  | succ m ih =>
    rw [tryG2]
    by_cases hb : begins lookStr (r.drop (m + 1)) = true
    · rw [if_pos hb]
      refine iff_of_false (by simp) fun hall => ?_
      have := hall (m + 1) (by omega) (le_refl _)
      rw [hb] at this
      exact absurd this (by simp)
    · have hf : begins lookStr (r.drop (m + 1)) = false := Bool.eq_false_iff.mpr hb
      rw [if_neg hb, ih]
      constructor
      · intro hall k h1 h2
        rcases Nat.lt_or_ge k (m + 1) with hk | hk
        · exact hall k h1 (by omega)
        · have hke : k = m + 1 := by omega
          rw [hke]
          exact hf
      · intro hall k h1 h2
        exact hall k h1 (by omega)

theorem tryG2_eq_some (r : List Char) : ∀ m p, tryG2 r m = some p →
    ∃ k, 1 ≤ k ∧ k ≤ m ∧ p = r.take k ∧ begins lookStr (r.drop k) = true ∧
      ∀ k', k < k' → k' ≤ m → begins lookStr (r.drop k') = false := by
  intro m
  induction m with
  | zero =>
    intro p h
    exact absurd h (by simp [tryG2])
  | succ m ih =>
    intro p h
    rw [tryG2] at h
    by_cases hb : begins lookStr (r.drop (m + 1)) = true
    · rw [if_pos hb] at h
      refine ⟨m + 1, by omega, le_refl _, (Option.some.inj h).symm, hb,
        fun k' h1 h2 => False.elim (by omega)⟩
    · have hf : begins lookStr (r.drop (m + 1)) = false := Bool.eq_false_iff.mpr hb
      rw [if_neg hb] at h
      obtain ⟨k, hk1, hk2, hk3, hk4, hk5⟩ := ih p h
      refine ⟨k, hk1, by omega, hk3, hk4, fun k' h1 h2 => ?_⟩
      rcases Nat.lt_or_ge k' (m + 1) with hk' | hk'
      · exact hk5 k' h1 (by omega)
      · have hke : k' = m + 1 := by omega
        rw [hke]
        exact hf

theorem tryG1_eq_none (r : List Char) : ∀ n, tryG1 r n = none ↔
    ∀ j, 1 ≤ j → j ≤ n → begins preyStr (r.drop j) = true →
      tryG2 (r.drop (j + 6)) (runLen (r.drop (j + 6))) = none := by
  intro n
  induction n with
  | zero =>
    constructor
    · intro _ j h1 h2
      omega
    · intro _
      rfl
  | succ n ih =>
    rw [tryG1]
    by_cases hp : begins preyStr (r.drop (n + 1)) = true
    · rw [if_pos hp]
      cases hg : tryG2 (r.drop (n + 7)) (runLen (r.drop (n + 7))) with
      | some p =>
        refine iff_of_false (by simp) fun hall => ?_
        have := hall (n + 1) (by omega) (le_refl _) hp
        rw [show (n + 1) + 6 = n + 7 from rfl] at this
        rw [hg] at this
        exact absurd this (by simp)
      | none =>
        rw [ih]
        constructor
        · intro hall j h1 h2 hpj
          rcases Nat.lt_or_ge j (n + 1) with hj | hj
          · exact hall j h1 (by omega) hpj
          · have hje : j = n + 1 := by omega
            subst hje
            exact hg
        · intro hall j h1 h2 hpj
          exact hall j h1 (by omega) hpj
    · have hpf : begins preyStr (r.drop (n + 1)) = false := Bool.eq_false_iff.mpr hp
      rw [if_neg hp, ih]
      constructor
      · intro hall j h1 h2 hpj
        rcases Nat.lt_or_ge j (n + 1) with hj | hj
        · exact hall j h1 (by omega) hpj
        · have hje : j = n + 1 := by omega
          subst hje
          rw [hpf] at hpj
          exact absurd hpj (by simp)
      · intro hall j h1 h2 hpj
        exact hall j h1 (by omega) hpj

theorem tryG1_eq_some (r : List Char) : ∀ n b p, tryG1 r n = some (b, p) →
    ∃ j, 1 ≤ j ∧ j ≤ n ∧ b = r.take j ∧ begins preyStr (r.drop j) = true ∧
      tryG2 (r.drop (j + 6)) (runLen (r.drop (j + 6))) = some p ∧
      ∀ j', j < j' → j' ≤ n → begins preyStr (r.drop j') = true →
        tryG2 (r.drop (j' + 6)) (runLen (r.drop (j' + 6))) = none := by
  intro n
  induction n with
  | zero =>
    intro b p h
    exact absurd h (by simp [tryG1])
  | succ n ih =>
    intro b p h
    rw [tryG1] at h
    by_cases hp : begins preyStr (r.drop (n + 1)) = true
    · rw [if_pos hp] at h
      cases hg : tryG2 (r.drop (n + 7)) (runLen (r.drop (n + 7))) with
      | some p0 =>
        rw [hg] at h
        have hb : r.take (n + 1) = b ∧ p0 = p := by
          have := Option.some.inj h
          exact ⟨congrArg Prod.fst this, congrArg Prod.snd this⟩
        refine ⟨n + 1, by omega, le_refl _, hb.1.symm, hp, ?_,
          fun j' h1 h2 hpj => False.elim (by omega)⟩
        rw [show (n + 1) + 6 = n + 7 from rfl, hg, hb.2]
      | none =>
        rw [hg] at h
        obtain ⟨j, h1, h2, h3, h4, h5, h6⟩ := ih b p h
        refine ⟨j, h1, by omega, h3, h4, h5, fun j' hj1 hj2 hpj => ?_⟩
        rcases Nat.lt_or_ge j' (n + 1) with hj' | hj'
        · exact h6 j' hj1 (by omega) hpj
        · have hje : j' = n + 1 := by omega
          subst hje
          exact hg
    · have hpf : begins preyStr (r.drop (n + 1)) = false := Bool.eq_false_iff.mpr hp
      rw [if_neg hp] at h
      obtain ⟨j, h1, h2, h3, h4, h5, h6⟩ := ih b p h
      refine ⟨j, h1, by omega, h3, h4, h5, fun j' hj1 hj2 hpj => ?_⟩
      rcases Nat.lt_or_ge j' (n + 1) with hj' | hj'
      · exact h6 j' hj1 (by omega) hpj
      · have hje : j' = n + 1 := by omega
        subst hje
        rw [hpf] at hpj
        exact absurd hpj (by simp)

theorem cand_parts (m B P : List Char) (hc : candB m 0 B P = true) :
    1 ≤ B.length ∧ B.length ≤ runLen (m.drop 5) ∧
    B = (m.drop 5).take B.length ∧
    begins preyStr ((m.drop 5).drop B.length) = true ∧
    1 ≤ P.length ∧ P.length ≤ runLen ((m.drop 5).drop (B.length + 6)) ∧
    P = ((m.drop 5).drop (B.length + 6)).take P.length ∧
    begins lookStr (((m.drop 5).drop (B.length + 6)).drop P.length) = true ∧
    begins baitStr m = true := by
  obtain ⟨h1, h2, h3, h4, tail, hm, h6⟩ := (candB_iff m B P).mp hc
  have hb5 : baitStr.length = 5 := rfl
  have hp6 : preyStr.length = 6 := rfl
  have hr : m.drop 5 = B ++ (preyStr ++ (P ++ tail)) := by
    rw [hm]
    exact List.drop_left' hb5
  have hBlen : 1 ≤ B.length := by
    cases B with
    | nil => exact absurd rfl h1
    | cons _ _ => simp
  have hPlen : 1 ≤ P.length := by
    cases P with
    | nil => exact absurd rfl h2
    | cons _ _ => simp
  have htake : (m.drop 5).take B.length = B := by
    rw [hr]
    exact List.take_left B _
  have hrun : B.length ≤ runLen (m.drop 5) := by
    rw [le_runLen_iff]
    constructor
    · rw [hr, List.length_append]
      omega
    · rw [htake]
      exact h3
  have hdropB : (m.drop 5).drop B.length = preyStr ++ (P ++ tail) := by
    rw [hr]
    exact List.drop_left B _
  have hr2 : (m.drop 5).drop (B.length + 6) = P ++ tail := by
    rw [hr, show B ++ (preyStr ++ (P ++ tail)) = (B ++ preyStr) ++ (P ++ tail) by
      simp [List.append_assoc]]
    exact List.drop_left' (by rw [List.length_append, hp6])
  have htakeP : ((m.drop 5).drop (B.length + 6)).take P.length = P := by
    rw [hr2]
    exact List.take_left P tail
  have hrunP : P.length ≤ runLen ((m.drop 5).drop (B.length + 6)) := by
    rw [le_runLen_iff]
    constructor
    · rw [hr2, List.length_append]
      omega
    · rw [htakeP]
      exact h4
  have hlook : ((m.drop 5).drop (B.length + 6)).drop P.length = tail := by
    rw [hr2]
    exact List.drop_left P tail
  exact ⟨hBlen, hrun, htake.symm, by rw [hdropB]; exact begins_append _ _,
    hPlen, hrunP, htakeP.symm, by rw [hlook]; exact h6,
    by rw [hm]; exact begins_append _ _⟩

theorem matchAt_none_cand (m : List Char) (h : matchAt m = none) :
    ∀ B P, candB m 0 B P = false := by
  intro B P
  cases hc : candB m 0 B P with
  | false => rfl
  | true =>
    exfalso
    obtain ⟨hB1, hB2, hBtake, hprey, hP1, hP2, hPtake, hlook, hbait⟩ :=
      cand_parts m B P hc
    rw [matchAt, if_pos hbait] at h
    have h' := (tryG1_eq_none _ _).mp h B.length hB1 hB2 hprey
    have h'' := (tryG2_eq_none _ _).mp h' P.length hP1 hP2
    rw [hlook] at h''
    exact absurd h'' (by simp)

theorem matchAt_some_cand (m b p : List Char) (h : matchAt m = some (b, p)) :
    candB m 0 b p = true ∧
    (∀ B' P', candB m 0 B' P' = true → B'.length ≤ b.length) ∧
    (∀ P', candB m 0 b P' = true → P'.length ≤ p.length) := by
  have hb5 : baitStr.length = 5 := rfl
  by_cases hbait : begins baitStr m = true
  case neg =>
    rw [matchAt, if_neg hbait] at h
    exact absurd h (by simp)
  case pos =>
  rw [matchAt, if_pos hbait] at h
  obtain ⟨j, hj1, hj2, hbtake, hprey, hg2, hmax1⟩ := tryG1_eq_some _ _ b p h
  obtain ⟨k, hk1, hk2, hptake, hlook, hmax2⟩ := tryG2_eq_some _ _ p hg2
  have hjlen : j ≤ (m.drop 5).length := le_trans hj2 (runLen_le_length _)
  have hblen : b.length = j := by
    rw [hbtake]
    exact length_take_of_le hjlen
  have hklen2 : k ≤ ((m.drop 5).drop (j + 6)).length :=
    le_trans hk2 (runLen_le_length _)
  have hplen : p.length = k := by
    rw [hptake]
    exact length_take_of_le hklen2
  obtain ⟨r0, hm0⟩ := (begins_iff baitStr m).mp hbait
  have hr0 : m.drop 5 = r0 := by
    rw [hm0]
    exact List.drop_left' hb5
  obtain ⟨u, hu⟩ := (begins_iff preyStr _).mp hprey
  have hu6 : (m.drop 5).drop (j + 6) = u := by
    have hsplit : (m.drop 5).drop (j + 6) = ((m.drop 5).drop j).drop 6 :=
      (List.drop_drop 6 j _).symm
    rw [hsplit, hu]
    exact List.drop_left' rfl
  have e4 : (m.drop 5).drop (j + 6) = p ++ (((m.drop 5).drop (j + 6)).drop k) := by
    conv_lhs => rw [← List.take_append_drop k ((m.drop 5).drop (j + 6))]
    rw [← hptake]
  have e3 : (m.drop 5).drop j
      = preyStr ++ (p ++ (((m.drop 5).drop (j + 6)).drop k)) := by
    rw [hu, ← hu6]
    nth_rewrite 1 [e4]
    rfl
  have e2 : m.drop 5 = b ++ ((m.drop 5).drop j) := by
    conv_lhs => rw [← List.take_append_drop j (m.drop 5)]
    rw [← hbtake]
  have hcand : candB m 0 b p = true := by
    rw [candB_iff]
    refine ⟨?_, ?_, ?_, ?_, ((m.drop 5).drop (j + 6)).drop k, ?_, hlook⟩
    · intro hbe
      rw [hbe] at hblen
      simp at hblen
      omega
    · intro hpe
      rw [hpe] at hplen
      simp at hplen
      omega
    · rw [hbtake]
      exact ((le_runLen_iff _ _).mp hj2).2
    · rw [hptake]
      exact ((le_runLen_iff _ _).mp hk2).2
    · calc m = baitStr ++ r0 := hm0
        _ = baitStr ++ (m.drop 5) := by rw [hr0]
        _ = baitStr ++ (b ++ ((m.drop 5).drop j)) := by conv_lhs => rw [e2]
        _ = baitStr ++ (b ++ (preyStr ++ (p ++ (((m.drop 5).drop (j + 6)).drop k))))
            := by conv_lhs => rw [e3]
  refine ⟨hcand, ?_, ?_⟩
  · intro B' P' hc'
    obtain ⟨hB1', hB2', hBtake', hprey', hP1', hP2', hPtake', hlook', _⟩ :=
      cand_parts m B' P' hc'
    by_contra hlt
    have hlt' : j < B'.length := by omega
    have hnone := hmax1 B'.length hlt' hB2' hprey'
    have hff := (tryG2_eq_none _ _).mp hnone P'.length hP1' hP2'
    rw [hlook'] at hff
    exact absurd hff (by simp)
  · intro P' hc'
    obtain ⟨hB1', hB2', hBtake', hprey', hP1', hP2', hPtake', hlook', _⟩ :=
      cand_parts m b P' hc'
    rw [hblen] at hP2' hlook'
    by_contra hlt
    have hlt' : k < P'.length := by omega
    have hff := hmax2 P'.length hlt' hP2'
    rw [hlook'] at hff
    exact absurd hff (by simp)

theorem searchBP_none_matchAt : ∀ l : List Char, searchBP l = none →
    ∀ i, matchAt (l.drop i) = none := by
  intro l
  induction l with
  | nil =>
    intro _ i
    rw [List.drop_nil]
    rfl
  | cons c t ih =>
    intro h i
    rw [searchBP] at h
    cases hm : matchAt (c :: t) with
    | some r =>
      rw [hm] at h
      exact absurd h (by simp)
    | none =>
      rw [hm] at h
      cases i with
      | zero =>
        rw [List.drop_zero]
        exact hm
      | succ i' =>
        rw [List.drop_succ_cons]
        exact ih h i'

theorem searchBP_some_matchAt : ∀ (l : List Char) r, searchBP l = some r →
    ∃ i, matchAt (l.drop i) = some r ∧ ∀ i', i' < i → matchAt (l.drop i') = none := by
  intro l
  induction l with
  | nil =>
    intro r h
    exact absurd h (by simp [searchBP])
  | cons c t ih =>
    intro r h
    rw [searchBP] at h
    cases hm : matchAt (c :: t) with
    | some r' =>
      rw [hm] at h
      refine ⟨0, ?_, fun i' hi' => absurd hi' (Nat.not_lt_zero _)⟩
      rw [List.drop_zero, hm]
      exact h
    | none =>
      rw [hm] at h
      obtain ⟨i, h1, h2⟩ := ih r h
      refine ⟨i + 1, by rw [List.drop_succ_cons]; exact h1, fun i' hi' => ?_⟩
      cases i' with
      | zero =>
        rw [List.drop_zero]
        exact hm
      | succ i'' =>
        rw [List.drop_succ_cons]
        exact h2 i'' (by omega)

theorem searchBP_greedy (l : List Char) : GreedySpec l (searchBP l) := by
  cases hs : searchBP l with
  | none =>
    show ∀ i B P, candB l i B P = false
    intro i B P
    rw [candB_shift]
    exact matchAt_none_cand _ (searchBP_none_matchAt l hs i) B P
  | some r =>
    obtain ⟨B, P⟩ := r
    show ∃ i, candB l i B P = true ∧
      (∀ i' B' P', candB l i' B' P' = true → i ≤ i') ∧
      (∀ B' P', candB l i B' P' = true → B'.length ≤ B.length) ∧
      (∀ P', candB l i B P' = true → P'.length ≤ P.length)
    obtain ⟨i, hm, hmin⟩ := searchBP_some_matchAt l (B, P) hs
    obtain ⟨hc, hmaxB, hmaxP⟩ := matchAt_some_cand _ B P hm
    refine ⟨i, by rw [candB_shift]; exact hc, ?_, ?_, ?_⟩
    · intro i' B' P' hc'
      by_contra hlt
      have hi' : i' < i := by omega
      have := matchAt_none_cand _ (hmin i' hi') B' P'
      rw [candB_shift] at hc'
      rw [hc'] at this
      exact absurd this (by simp)
    · intro B' P' hc'
      rw [candB_shift] at hc'
      exact hmaxB B' P' hc'
    · intro P' hc'
      rw [candB_shift] at hc'
      exact hmaxP P' hc'

/-- **C3** (counterexample): the filename
`bait_a_prey_b_prey_c_summary_confidences_4.json` is of the claimed form
with `B = "a"`, `P = "b_prey_c"` (a candidate at the leftmost — indeed the
only — matching position 0), yet the parser does not return
`("a", "b_prey_c")`: the greedy first group grabs `"a_prey_b"`. -/
theorem claim_C3_parser_counterexample :
    candB ("bait_a_prey_b_prey_c_summary_confidences_4.json".data) 0
        "a".data "b_prey_c".data = true ∧
    extract_bait_prey "bait_a_prey_b_prey_c_summary_confidences_4.json"
      ≠ some ("a", "b_prey_c") ∧
    extract_bait_prey "bait_a_prey_b_prey_c_summary_confidences_4.json"
      = some ("a_prey_b", "c") := by
  refine ⟨by decide, by decide, by decide⟩

/-- **C3** (amended): on the preprocessed filename the parser returns
`none` exactly when no decomposition
`bait_<B>_prey_<P>_summary_confidences_4` (with `<B>`, `<P>` non-empty and
free of `/` and `\`) occurs; otherwise it returns the candidate at the
leftmost matching position, choosing the longest `<B>` there, and then the
longest `<P>` for that `<B>` (regex greediness) — not merely "the first
candidate".  `extract_bait_prey` is the search composed with the
`::`-split/basename preprocessing. -/
theorem claim_C3_parser_amended (s : String) :
    GreedySpec (processName s.data) (searchBP (processName s.data)) ∧
    (extract_bait_prey s = none ↔ searchBP (processName s.data) = none) ∧
    (∀ B P, searchBP (processName s.data) = some (B, P) →
      extract_bait_prey s = some (String.mk B, String.mk P)) := by
  refine ⟨searchBP_greedy _, ?_, ?_⟩
  · unfold extract_bait_prey
    cases searchBP (processName s.data) <;> simp
  · intro B P h
    unfold extract_bait_prey
    rw [h]
    rfl

/-- Witness for C3 (amended) at the multi-candidate filename: the parser
output `("a_prey_b", "c")` is produced by the search. -/
theorem claim_C3_parser_amended_witness :
    extract_bait_prey "bait_a_prey_b_prey_c_summary_confidences_4.json"
      = some (String.mk "a_prey_b".data, String.mk "c".data) :=
  (claim_C3_parser_amended "bait_a_prey_b_prey_c_summary_confidences_4.json").2.2
    "a_prey_b".data "c".data (by decide)

/-- Witness for C10 at a concrete record. -/
theorem claim_C10_roundtrip_witness :
    ∃ r', readRow (writeRow (mkSimple "a" "p" (some (mkRat 1 2)))) = some r' ∧
      r'.bait = (mkSimple "a" "p" (some (mkRat 1 2))).bait ∧
      r'.prey = (mkSimple "a" "p" (some (mkRat 1 2))).prey ∧
      r'.iptm = (mkSimple "a" "p" (some (mkRat 1 2))).iptm ∧
      r'.chainIptm = (mkSimple "a" "p" (some (mkRat 1 2))).chainIptm ∧
      r'.chainPtm = (mkSimple "a" "p" (some (mkRat 1 2))).chainPtm ∧
      r'.chainPairIptm = (mkSimple "a" "p" (some (mkRat 1 2))).chainPairIptm ∧
      r'.chainPairPaeMin = (mkSimple "a" "p" (some (mkRat 1 2))).chainPairPaeMin :=
  claim_C10_roundtrip (mkSimple "a" "p" (some (mkRat 1 2)))
    (Or.inr ⟨mkRat 1 2, rfl⟩)

end AF3
